import Mathlib

/-!
Verification of the MongoDB storage backend (cork/mongodb_backend.py):
a shallow embedding of the table abstraction (generic, single-value,
multi-value), the memcache side cache, and the mutable record view,
together with proofs of the cache-consistency and CRUD properties.

Modelling choices:
* A stored document is an association list from field name to `Value`
  with Python-dict semantics (insertion order, update in place).
* The document store (one pymongo collection) is a list of documents
  plus a counter used to mint fresh storage ids; `update(upsert=True)`
  replaces the first matching document (keeping its storage id) or
  appends a new one with a fresh id, `find_one` returns the first
  match, `remove` deletes every match.
* The memcache client is `Option` (absent when `_MC.cache is None`);
  each raw cache call is recorded in an event trace, so that claims
  about which operations touch the cache are observable; a raw cache
  call with no client is the Python `AttributeError` on `None`.
* Errors (`KeyError`, `AssertionError`, `AttributeError`) are modelled
  by a result type that keeps the state reached when the error is
  raised, matching Python exception semantics (no rollback).
* Keys supplied by callers are strings, as in every use of the backend
  (logins, registration codes, role names).
-/

/-- A Python value as stored in documents: string, integer, or dict. -/
inductive Value where
  | vStr : String → Value
  | vInt : Int → Value
  | vDict : List (String × Value) → Value

/-- A document / Python dict: field name to value, insertion-ordered. -/
abbrev Doc := List (String × Value)

/-- Python equality test between a stored value and a string key
(`v == key_val`): true only for an equal string. -/
def isStrEq (v : Value) (k : String) : Bool :=
  match v with
  | .vStr s => s == k
  | _ => false

/-- Lookup of a field in a dict: first binding wins. -/
def dlookup : Doc → String → Option Value
  | [], _ => none
  | (g, v) :: rest, f => if g = f then some v else dlookup rest f

/-- Python dict assignment `d[f] = v`: replaces the first binding of
`f` in place, else appends a new binding. -/
def dset : Doc → String → Value → Doc
  | [], f, v => [(f, v)]
  | (g, w) :: rest, f, v =>
    if g = f then (g, v) :: rest else (g, w) :: dset rest f v

/-- Python dict `d.pop(f)` (the removal part): drops the first binding. -/
def dpop : Doc → String → Doc
  | [], _ => []
  | (g, w) :: rest, f => if g = f then rest else (g, w) :: dpop rest f

/-- Generic association-list lookup for the cache. -/
def alookup : List (String × Doc) → String → Option Doc
  | [], _ => none
  | (g, v) :: rest, f => if g = f then some v else alookup rest f

/-- Generic association-list update for the cache (overwrite or add). -/
def aset : List (String × Doc) → String → Doc → List (String × Doc)
  | [], f, v => [(f, v)]
  | (g, w) :: rest, f, v =>
    if g = f then (g, v) :: rest else (g, w) :: aset rest f v

/-- Generic association-list deletion for the cache (idempotent). -/
def adel : List (String × Doc) → String → List (String × Doc)
  | [], _ => []
  | (g, w) :: rest, f => if g = f then adel rest f else (g, w) :: adel rest f

/-- Whether a document matches the query `{key_name: key_val}`. -/
def docMatches (kn k : String) (d : Doc) : Bool :=
  match dlookup d kn with
  | some v => isStrEq v k
  | none => false

/-- One pymongo collection: stored documents plus a counter minting
fresh storage ids for upsert-inserted documents. -/
structure Coll where
  docs : List Doc
  nextId : Int

/-- `find_one({key_name: key_val})`: first matching document. -/
def findOne (c : Coll) (kn k : String) : Option Doc :=
  c.docs.find? (docMatches kn k)

/-- Replace the first document matching the key query by a new one. -/
def replaceFirstDoc : List Doc → String → String → Doc → List Doc
  | [], _, _, _ => []
  | d :: rest, kn, k, nd =>
    if docMatches kn k d then nd :: rest
    else d :: replaceFirstDoc rest kn k nd

/-- The document actually stored by `update({key_name: key_val}, data,
upsert=True)`: the replacement keeps the existing storage id, an insert
mints a fresh one; a `data` that already carries a storage id is kept
as given. -/
def storedDoc (c : Coll) (kn k : String) (data : Doc) : Doc :=
  match dlookup data "_id" with
  | some _ => data
  | none =>
    match findOne c kn k with
    | some old =>
      match dlookup old "_id" with
      | some oid => dset data "_id" oid
      | none => data
    | none => dset data "_id" (.vInt c.nextId)

/-- `collection.update({key_name: key_val}, data, upsert=True)`. -/
def collUpdate (c : Coll) (kn k : String) (data : Doc) : Coll :=
  match findOne c kn k with
  | some _ => { c with docs := replaceFirstDoc c.docs kn k (storedDoc c kn k data) }
  | none => { docs := c.docs ++ [storedDoc c kn k data], nextId := c.nextId + 1 }

/-- `collection.remove({key_name: key_val})`: deletes every match. -/
def collRemove (c : Coll) (kn k : String) : Coll :=
  { c with docs := c.docs.filter (fun d => !(docMatches kn k d)) }

/-- A raw call made to the memcache client, recorded for observability. -/
inductive CacheEvt where
  | getEvt : String → CacheEvt
  | setEvt : String → Doc → CacheEvt
  | delEvt : String → CacheEvt

/-- Whether an event is a cache write (`Memcache.set`). -/
def isSetEvt : CacheEvt → Bool
  | .setEvt _ _ => true
  | _ => false

/-- Backend state: the document store, the optional memcache client
(`none` models `_MC.cache is None`) with its contents, and the trace
of raw cache calls issued so far. -/
structure St where
  coll : Coll
  cacheClient : Option (List (String × Doc))
  events : List CacheEvt

/-- Errors the backend can raise. -/
inductive Err where
  | keyError : String → Err
  | assertionError : Err
  | attrError : Err

/-- Result of an operation: value or error, with the state reached
(Python exceptions do not roll back state). -/
inductive Res (α : Type) where
  | ok : α → St → Res α
  | err : Err → St → Res α

/-- Memcache key namespacing: concatenation of the collection's cache
key namespace and the key (`Memcache.key`). -/
def mcKey (pfx k : String) : String := pfx ++ k

/-- Raw `Memcache.get`: dereferences the cache client (AttributeError
when absent), returns the cached document or a miss. -/
def Memcache.get (k pfx : String) (s : St) : Res (Option Doc) :=
  match s.cacheClient with
  | none => .err .attrError s
  | some es =>
    .ok (alookup es (mcKey pfx k)) { s with events := s.events ++ [.getEvt (mcKey pfx k)] }

/-- Raw `Memcache.set`: stores the document under the namespaced key. -/
def Memcache.set (k : String) (d : Doc) (pfx : String) (s : St) : Res Unit :=
  match s.cacheClient with
  | none => .err .attrError s
  | some es =>
    .ok () { s with cacheClient := some (aset es (mcKey pfx k) d),
                    events := s.events ++ [.setEvt (mcKey pfx k) d] }

/-- Raw `Memcache.delete`: removes the namespaced key, idempotent. -/
def Memcache.delete (k pfx : String) (s : St) : Res Unit :=
  match s.cacheClient with
  | none => .err .attrError s
  | some es =>
    .ok () { s with cacheClient := some (adel es (mcKey pfx k)),
                    events := s.events ++ [.delEvt (mcKey pfx k)] }

/-- Configuration of one table: collection name and key field name. -/
structure TableCfg where
  name : String
  key_name : String

/-- The table's cache key namespace: `name ++ key_name` (`_mc_prefix`). -/
def TableCfg.mcPfx (t : TableCfg) : String := t.name ++ t.key_name

/-- The cached document for a namespaced key, if any (none when no
cache client is configured). -/
def cacheEntryOf (s : St) (nk : String) : Option Doc :=
  match s.cacheClient with
  | none => none
  | some es => alookup es nk

/-- `MongoTable.__contains__`: cache-first existence check; populates
the cache with the full document when one was found. -/
def MongoTable.containsKey (t : TableCfg) (k : String) (s : St) : Res Bool :=
  match (if s.cacheClient.isSome then Memcache.get k t.mcPfx s else .ok none s) with
  | .err e s1 => .err e s1
  | .ok r0 s1 =>
    let r : Option Doc :=
      match r0 with
      | none => findOne s1.coll t.key_name k
      | some d => some d
    match (match s1.cacheClient.isSome, r with
           | true, some d => Memcache.set k d t.mcPfx s1
           | _, _ => .ok () s1) with
    | .err e s2 => .err e s2
    | .ok _ s2 => .ok r.isSome s2

/-- `MongoSingleValueTable.__setitem__`: rejects dict values, upserts
the wrapper document, invalidates the cache entry. -/
def MongoSingleValueTable.setItem (t : TableCfg) (k : String) (data : Value) (s : St) :
    Res Unit :=
  match data with
  | .vDict _ => .err .assertionError s
  | _ =>
    let doc := dset (dset [] t.key_name (.vStr k)) "val" data
    let s1 : St := { s with coll := collUpdate s.coll t.key_name k doc }
    if s1.cacheClient.isSome then Memcache.delete k t.mcPfx s1 else .ok () s1

/-- `MongoSingleValueTable.__getitem__`: cache-first lookup; raises
KeyError on an absent key; re-populates the cache on every successful
lookup; returns the stored document's `val` field. -/
def MongoSingleValueTable.getItem (t : TableCfg) (k : String) (s : St) : Res Value :=
  match (if s.cacheClient.isSome then Memcache.get k t.mcPfx s else .ok none s) with
  | .err e s1 => .err e s1
  | .ok r0 s1 =>
    let r : Option Doc :=
      match r0 with
      | none => findOne s1.coll t.key_name k
      | some d => some d
    match r with
    | none => .err (.keyError k) s1
    | some d =>
      match (if s1.cacheClient.isSome then Memcache.set k d t.mcPfx s1 else .ok () s1) with
      | .err e s2 => .err e s2
      | .ok _ s2 =>
        match dlookup d "val" with
        | some v => .ok v s2
        | none => .err (.keyError "val") s2

/-- A mutable record view: the record bound to its owning table and
its key (`MongoMutableDict`). -/
structure MongoMutableRecord where
  parent : TableCfg
  root_key : String
  data : Doc

/-- `MongoMultiValueTable.__setitem__`: requires a dict; the embedded
key field must agree with the supplied key, else it is injected into
the caller's dict; upserts and invalidates the cache entry. Returns
the (possibly mutated) record, modelling the in-place mutation of the
caller's dict object. -/
def MongoMultiValueTable.setItem (t : TableCfg) (k : String) (data : Value) (s : St) :
    Res Doc :=
  match data with
  | .vDict d =>
    match (match dlookup d t.key_name with
           | some w => if isStrEq w k then Res.ok d s else Res.err .assertionError s
           | none => Res.ok (dset d t.key_name (.vStr k)) s) with
    | .err e s1 => .err e s1
    | .ok d' s1 =>
      let s2 : St := { s1 with coll := collUpdate s1.coll t.key_name k d' }
      match (if s2.cacheClient.isSome then Memcache.delete k t.mcPfx s2 else .ok () s2) with
      | .err e s3 => .err e s3
      | .ok _ s3 => .ok d' s3
  | _ => .err .assertionError s

/-- `MongoMultiValueTable.__getitem__`: cache-first lookup; KeyError on
an absent key; re-populates the cache on every successful lookup;
returns a mutable record view bound to this table and key. -/
def MongoMultiValueTable.getItem (t : TableCfg) (k : String) (s : St) :
    Res MongoMutableRecord :=
  match (if s.cacheClient.isSome then Memcache.get k t.mcPfx s else .ok none s) with
  | .err e s1 => .err e s1
  | .ok r0 s1 =>
    let r : Option Doc :=
      match r0 with
      | none => findOne s1.coll t.key_name k
      | some d => some d
    match r with
    | none => .err (.keyError k) s1
    | some d =>
      match (if s1.cacheClient.isSome then Memcache.set k d t.mcPfx s1 else .ok () s1) with
      | .err e s2 => .err e s2
      | .ok _ s2 => .ok ⟨t, k, d⟩ s2

/-- `MongoMutableDict.__setitem__`: updates the in-memory field, then
writes the whole record back through the owning table. -/
def MongoMutableRecord.setField (m : MongoMutableRecord) (f : String) (v : Value) (s : St) :
    Res MongoMutableRecord :=
  let d1 := dset m.data f v
  match MongoMultiValueTable.setItem m.parent m.root_key (.vDict d1) s with
  | .err e s1 => .err e s1
  | .ok d2 s1 => .ok { m with data := d2 } s1

/-- `MongoTable.pop` as dispatched on a single-value table: read via
`__getitem__`, delete the document, invalidate the cache, return the
value read. -/
def MongoSingleValueTable.pop (t : TableCfg) (k : String) (s : St) : Res Value :=
  match MongoSingleValueTable.getItem t k s with
  | .err e s1 => .err e s1
  | .ok v s1 =>
    let s2 : St := { s1 with coll := collRemove s1.coll t.key_name k }
    match (if s2.cacheClient.isSome then Memcache.delete k t.mcPfx s2 else .ok () s2) with
    | .err e s3 => .err e s3
    | .ok _ s3 => .ok v s3

/-- `MongoTable.pop` as dispatched on a multi-value table. -/
def MongoMultiValueTable.pop (t : TableCfg) (k : String) (s : St) :
    Res MongoMutableRecord :=
  match MongoMultiValueTable.getItem t k s with
  | .err e s1 => .err e s1
  | .ok m s1 =>
    let s2 : St := { s1 with coll := collRemove s1.coll t.key_name k }
    match (if s2.cacheClient.isSome then Memcache.delete k t.mcPfx s2 else .ok () s2) with
    | .err e s3 => .err e s3
    | .ok _ s3 => .ok m s3

/-- Processing of one document by `MongoTable.iteritems`: pop the key
field and the storage id from a copy, yield the key value with the
remaining record; a missing field is a KeyError. -/
def iterOneDoc (kn : String) (i : Doc) : Except Err (Value × Doc) :=
  match dlookup i kn with
  | none => .error (.keyError kn)
  | some kv =>
    let d1 := dpop i kn
    match dlookup d1 "_id" with
    | none => .error (.keyError "_id")
    | some _ => .ok (kv, dpop d1 "_id")

/-- Full consumption of the `iteritems` generator over a document list. -/
def iterItemsList (kn : String) : List Doc → Except Err (List (Value × Doc))
  | [] => .ok []
  | i :: rest =>
    match iterOneDoc kn i with
    | .error e => .error e
    | .ok p =>
      match iterItemsList kn rest with
      | .error e => .error e
      | .ok ps => .ok (p :: ps)

/-- `MongoTable.iteritems`: enumerates `(key, record)` pairs straight
from the store; the cache is neither consulted nor written. -/
def MongoTable.iterItems (t : TableCfg) (s : St) : Res (List (Value × Doc)) :=
  match iterItemsList t.key_name s.coll.docs with
  | .ok l => .ok l s
  | .error e => .err e s

/-- Python `isinstance(v, dict)`. -/
def isDict : Value → Bool
  | .vDict _ => true
  | _ => false

/-- The wrapper document written by a single-value `set`:
`{key_field: key, val: value}` built with Python dict semantics. -/
def svDoc (t : TableCfg) (k : String) (v : Value) : Doc :=
  dset (dset [] t.key_name (.vStr k)) "val" v

/-- The record as written by a multi-value `set`: the caller's dict,
with the key field injected when absent. -/
def mvData (t : TableCfg) (k : String) (d : Doc) : Doc :=
  match dlookup d t.key_name with
  | some _ => d
  | none => dset d t.key_name (.vStr k)

/-! Concrete fixtures used to exercise the theorems on the backend's
own tables (`roles` with key field `role`, `users` with key field
`login`). -/

/-- The `roles` single-value table configuration. -/
def rolesT : TableCfg := ⟨"roles", "role"⟩

/-- The `users` multi-value table configuration. -/
def usersT : TableCfg := ⟨"users", "login"⟩

/-- Empty store, no cache client configured. -/
def emptySt : St := ⟨⟨[], 0⟩, none, []⟩

/-- Empty store, cache client configured with no entries. -/
def emptyCacheSt : St := ⟨⟨[], 0⟩, some [], []⟩

/-- A stored user document for login `alice`. -/
def aliceDoc : Doc := [("login", .vStr "alice"), ("email", .vStr "a@x.com"), ("_id", .vInt 0)]

/-- Store holding only the `alice` document, no cache client. -/
def aliceSt : St := ⟨⟨[aliceDoc], 1⟩, none, []⟩

/-- A role document as it would sit in the cache. -/
def cachedRoleDoc : Doc := [("role", .vStr "admin"), ("val", .vStr "cached"), ("_id", .vInt 7)]

/-- Empty store but a cache entry for role `admin`: a lookup of
`admin` is necessarily served from the cache. -/
def cacheHitSt : St := ⟨⟨[], 0⟩, some [("rolesroleadmin", cachedRoleDoc)], []⟩

/-- A stored role document for role `admin`. -/
def adminRoleDoc : Doc := [("role", .vStr "admin"), ("val", .vStr "x"), ("_id", .vInt 3)]

/-- Store holding only the `admin` role document, no cache client. -/
def adminSt : St := ⟨⟨[adminRoleDoc], 4⟩, none, []⟩

/-! Basic facts about dict and cache association lists. -/

@[simp] theorem dlookup_dset_self (d : Doc) (f : String) (v : Value) :
    dlookup (dset d f v) f = some v := by
  induction d with
  | nil => simp [dset, dlookup]
  | cons p rest ih =>
    obtain ⟨g, w⟩ := p
    by_cases h : g = f <;> simp [dset, dlookup, h, ih]

theorem dlookup_dset_ne (d : Doc) {f g : String} (v : Value) (h : g ≠ f) :
    dlookup (dset d f v) g = dlookup d g := by
  induction d with
  | nil => simp [dset, dlookup, Ne.symm h]
  | cons p rest ih =>
    obtain ⟨a, w⟩ := p
    by_cases ha : a = f
    · subst ha
      simp [dset, dlookup, Ne.symm h]
    · simp [dset, dlookup, ha, ih]

theorem dset_of_absent (d : Doc) (f : String) (v : Value) (h : dlookup d f = none) :
    dset d f v = d ++ [(f, v)] := by
  induction d with
  | nil => simp [dset]
  | cons p rest ih =>
    obtain ⟨g, w⟩ := p
    by_cases hg : g = f
    · simp [dlookup, hg] at h
    · simp [dlookup, hg] at h
      simp [dset, hg, ih h]

theorem dlookup_dpop_ne (d : Doc) {f g : String} (h : g ≠ f) :
    dlookup (dpop d f) g = dlookup d g := by
  induction d with
  | nil => simp [dpop]
  | cons p rest ih =>
    obtain ⟨a, w⟩ := p
    by_cases ha : a = f
    · subst ha
      simp [dpop, dlookup, Ne.symm h]
    · simp [dpop, dlookup, ha, ih]

theorem dlookup_eq_none_of_not_mem_keys (d : Doc) (f : String)
    (h : f ∉ d.map Prod.fst) : dlookup d f = none := by
  induction d with
  | nil => rfl
  | cons p rest ih =>
    obtain ⟨a, w⟩ := p
    rw [List.map_cons, List.mem_cons] at h
    push_neg at h
    simp only [dlookup, if_neg (Ne.symm h.1)]
    exact ih h.2

theorem dlookup_dpop_self (d : Doc) (f : String)
    (h : (d.map Prod.fst).Nodup) : dlookup (dpop d f) f = none := by
  induction d with
  | nil => rfl
  | cons p rest ih =>
    obtain ⟨a, w⟩ := p
    rw [List.map_cons, List.nodup_cons] at h
    by_cases ha : a = f
    · subst ha
      simp only [dpop, if_pos rfl]
      exact dlookup_eq_none_of_not_mem_keys rest a h.1
    · simp only [dpop, if_neg ha, dlookup, if_neg ha]
      exact ih h.2

theorem dpop_map_fst (d : Doc) (f : String) :
    ((dpop d f).map Prod.fst).Sublist (d.map Prod.fst) := by
  induction d with
  | nil => simp [dpop]
  | cons p rest ih =>
    obtain ⟨a, w⟩ := p
    by_cases ha : a = f
    · simp [dpop, ha]
    · simpa [dpop, ha] using ih

@[simp] theorem alookup_aset_self (l : List (String × Doc)) (f : String) (v : Doc) :
    alookup (aset l f v) f = some v := by
  induction l with
  | nil => simp [aset, alookup]
  | cons p rest ih =>
    obtain ⟨g, w⟩ := p
    by_cases h : g = f <;> simp [aset, alookup, h, ih]

theorem alookup_aset_ne (l : List (String × Doc)) {f g : String} (v : Doc) (h : g ≠ f) :
    alookup (aset l f v) g = alookup l g := by
  induction l with
  | nil => simp [aset, alookup, Ne.symm h]
  | cons p rest ih =>
    obtain ⟨a, w⟩ := p
    by_cases ha : a = f
    · subst ha
      simp [aset, alookup, Ne.symm h]
    · simp [aset, alookup, ha, ih]

@[simp] theorem alookup_adel_self (l : List (String × Doc)) (f : String) :
    alookup (adel l f) f = none := by
  induction l with
  | nil => simp [adel, alookup]
  | cons p rest ih =>
    obtain ⟨g, w⟩ := p
    by_cases h : g = f <;> simp [adel, alookup, h, ih]

theorem alookup_adel_ne (l : List (String × Doc)) {f g : String} (h : g ≠ f) :
    alookup (adel l f) g = alookup l g := by
  induction l with
  | nil => simp [adel, alookup]
  | cons p rest ih =>
    obtain ⟨a, w⟩ := p
    by_cases ha : a = f
    · subst ha
      simp [adel, alookup, Ne.symm h, ih]
    · simp [adel, alookup, ha, ih]

@[simp] theorem isStrEq_self (k : String) : isStrEq (.vStr k) k = true := by
  simp [isStrEq]

/-! Facts about the document store operations. -/

theorem dlookup_storedDoc_of_mem {c : Coll} {kn k f : String} {data : Doc} {w : Value}
    (h : dlookup data f = some w) :
    dlookup (storedDoc c kn k data) f = some w := by
  cases hid : dlookup data "_id" with
  | some oid => simpa [storedDoc, hid] using h
  | none =>
    have hf : f ≠ "_id" := by
      intro he
      rw [he] at h
      rw [h] at hid
      exact Option.noConfusion hid
    cases hf1 : findOne c kn k with
    | none => simpa [storedDoc, hid, hf1, dlookup_dset_ne _ _ hf] using h
    | some old =>
      cases ho : dlookup old "_id" with
      | none => simpa [storedDoc, hid, hf1, ho] using h
      | some oid => simpa [storedDoc, hid, hf1, ho, dlookup_dset_ne _ _ hf] using h

theorem docMatches_storedDoc {c : Coll} {kn k : String} {data : Doc}
    (hm : docMatches kn k data = true) :
    docMatches kn k (storedDoc c kn k data) = true := by
  unfold docMatches at hm ⊢
  cases hkn : dlookup data kn with
  | none => rw [hkn] at hm; exact absurd hm (by simp)
  | some v =>
    rw [hkn] at hm
    rw [dlookup_storedDoc_of_mem hkn]
    exact hm

theorem find?_replaceFirstDoc {docs : List Doc} {kn k : String} {nd old : Doc}
    (hf : docs.find? (docMatches kn k) = some old)
    (hnd : docMatches kn k nd = true) :
    (replaceFirstDoc docs kn k nd).find? (docMatches kn k) = some nd := by
  induction docs with
  | nil => simp at hf
  | cons d rest ih =>
    by_cases hd : docMatches kn k d = true
    · simp only [replaceFirstDoc, if_pos hd]
      exact List.find?_cons_of_pos _ hnd
    · rw [List.find?_cons_of_neg _ hd] at hf
      simp only [replaceFirstDoc, if_neg hd]
      rw [List.find?_cons_of_neg _ hd]
      exact ih hf

theorem find?_append_of_none {docs : List Doc} {p : Doc → Bool} {nd : Doc}
    (hf : docs.find? p = none) (hnd : p nd = true) :
    (docs ++ [nd]).find? p = some nd := by
  induction docs with
  | nil => simpa using List.find?_cons_of_pos ([] : List Doc) hnd
  | cons d rest ih =>
    have hd : ¬ p d = true := by
      intro hcon
      rw [List.find?_cons_of_pos _ hcon] at hf
      exact Option.noConfusion hf
    rw [List.find?_cons_of_neg _ hd] at hf
    rw [List.cons_append, List.find?_cons_of_neg _ hd]
    exact ih hf

theorem findOne_collUpdate {c : Coll} {kn k : String} {data : Doc}
    (hm : docMatches kn k data = true) :
    findOne (collUpdate c kn k data) kn k = some (storedDoc c kn k data) := by
  have hnd := docMatches_storedDoc (c := c) hm
  cases hf : c.docs.find? (docMatches kn k) with
  | some old =>
    simp only [collUpdate, findOne, hf]
    exact find?_replaceFirstDoc hf hnd
  | none =>
    simp only [collUpdate, findOne, hf]
    exact find?_append_of_none hf hnd

theorem findOne_collRemove (c : Coll) (kn k : String) :
    findOne (collRemove c kn k) kn k = none := by
  simp only [findOne, collRemove, List.find?_eq_none, List.mem_filter]
  intro d hd
  simpa using hd.2

/-! Shape lemmas: each table operation, by cache configuration and
hit/miss case. -/

theorem containsKey_none {t : TableCfg} {k : String} {s : St}
    (hc : s.cacheClient = none) :
    MongoTable.containsKey t k s = .ok (findOne s.coll t.key_name k).isSome s := by
  simp [MongoTable.containsKey, hc]

theorem containsKey_some_hit {t : TableCfg} {k : String} {s : St}
    {es : List (String × Doc)} {d : Doc}
    (hc : s.cacheClient = some es) (hh : alookup es (t.mcPfx ++ k) = some d) :
    MongoTable.containsKey t k s =
      .ok true { s with cacheClient := some (aset es (t.mcPfx ++ k) d),
                        events := s.events ++ [.getEvt (t.mcPfx ++ k),
                                               .setEvt (t.mcPfx ++ k) d] } := by
  simp [MongoTable.containsKey, Memcache.get, Memcache.set, mcKey, hc, hh,
        List.append_assoc]

theorem containsKey_some_miss_found {t : TableCfg} {k : String} {s : St}
    {es : List (String × Doc)} {d : Doc}
    (hc : s.cacheClient = some es) (hh : alookup es (t.mcPfx ++ k) = none)
    (hf : findOne s.coll t.key_name k = some d) :
    MongoTable.containsKey t k s =
      .ok true { s with cacheClient := some (aset es (t.mcPfx ++ k) d),
                        events := s.events ++ [.getEvt (t.mcPfx ++ k),
                                               .setEvt (t.mcPfx ++ k) d] } := by
  simp [MongoTable.containsKey, Memcache.get, Memcache.set, mcKey, hc, hh, hf,
        List.append_assoc]

theorem containsKey_some_miss_absent {t : TableCfg} {k : String} {s : St}
    {es : List (String × Doc)}
    (hc : s.cacheClient = some es) (hh : alookup es (t.mcPfx ++ k) = none)
    (hf : findOne s.coll t.key_name k = none) :
    MongoTable.containsKey t k s =
      .ok false { s with events := s.events ++ [.getEvt (t.mcPfx ++ k)] } := by
  simp [MongoTable.containsKey, Memcache.get, mcKey, hc, hh, hf]

theorem svGet_none_found {t : TableCfg} {k : String} {s : St} {d : Doc} {v : Value}
    (hc : s.cacheClient = none) (hf : findOne s.coll t.key_name k = some d)
    (hv : dlookup d "val" = some v) :
    MongoSingleValueTable.getItem t k s = .ok v s := by
  simp [MongoSingleValueTable.getItem, hc, hf, hv]

theorem svGet_none_absent {t : TableCfg} {k : String} {s : St}
    (hc : s.cacheClient = none) (hf : findOne s.coll t.key_name k = none) :
    MongoSingleValueTable.getItem t k s = .err (.keyError k) s := by
  simp [MongoSingleValueTable.getItem, hc, hf]

theorem svGet_some_hit {t : TableCfg} {k : String} {s : St}
    {es : List (String × Doc)} {d : Doc} {v : Value}
    (hc : s.cacheClient = some es) (hh : alookup es (t.mcPfx ++ k) = some d)
    (hv : dlookup d "val" = some v) :
    MongoSingleValueTable.getItem t k s =
      .ok v { s with cacheClient := some (aset es (t.mcPfx ++ k) d),
                     events := s.events ++ [.getEvt (t.mcPfx ++ k),
                                            .setEvt (t.mcPfx ++ k) d] } := by
  simp [MongoSingleValueTable.getItem, Memcache.get, Memcache.set, mcKey, hc, hh, hv,
        List.append_assoc]

theorem svGet_some_miss_found {t : TableCfg} {k : String} {s : St}
    {es : List (String × Doc)} {d : Doc} {v : Value}
    (hc : s.cacheClient = some es) (hh : alookup es (t.mcPfx ++ k) = none)
    (hf : findOne s.coll t.key_name k = some d) (hv : dlookup d "val" = some v) :
    MongoSingleValueTable.getItem t k s =
      .ok v { s with cacheClient := some (aset es (t.mcPfx ++ k) d),
                     events := s.events ++ [.getEvt (t.mcPfx ++ k),
                                            .setEvt (t.mcPfx ++ k) d] } := by
  simp [MongoSingleValueTable.getItem, Memcache.get, Memcache.set, mcKey, hc, hh, hf, hv,
        List.append_assoc]

theorem svGet_some_miss_absent {t : TableCfg} {k : String} {s : St}
    {es : List (String × Doc)}
    (hc : s.cacheClient = some es) (hh : alookup es (t.mcPfx ++ k) = none)
    (hf : findOne s.coll t.key_name k = none) :
    MongoSingleValueTable.getItem t k s =
      .err (.keyError k) { s with events := s.events ++ [.getEvt (t.mcPfx ++ k)] } := by
  simp [MongoSingleValueTable.getItem, Memcache.get, mcKey, hc, hh, hf]

theorem mvGet_none_found {t : TableCfg} {k : String} {s : St} {d : Doc}
    (hc : s.cacheClient = none) (hf : findOne s.coll t.key_name k = some d) :
    MongoMultiValueTable.getItem t k s = .ok ⟨t, k, d⟩ s := by
  simp [MongoMultiValueTable.getItem, hc, hf]

theorem mvGet_none_absent {t : TableCfg} {k : String} {s : St}
    (hc : s.cacheClient = none) (hf : findOne s.coll t.key_name k = none) :
    MongoMultiValueTable.getItem t k s = .err (.keyError k) s := by
  simp [MongoMultiValueTable.getItem, hc, hf]

theorem mvGet_some_hit {t : TableCfg} {k : String} {s : St}
    {es : List (String × Doc)} {d : Doc}
    (hc : s.cacheClient = some es) (hh : alookup es (t.mcPfx ++ k) = some d) :
    MongoMultiValueTable.getItem t k s =
      .ok ⟨t, k, d⟩ { s with cacheClient := some (aset es (t.mcPfx ++ k) d),
                             events := s.events ++ [.getEvt (t.mcPfx ++ k),
                                                    .setEvt (t.mcPfx ++ k) d] } := by
  simp [MongoMultiValueTable.getItem, Memcache.get, Memcache.set, mcKey, hc, hh,
        List.append_assoc]

theorem mvGet_some_miss_found {t : TableCfg} {k : String} {s : St}
    {es : List (String × Doc)} {d : Doc}
    (hc : s.cacheClient = some es) (hh : alookup es (t.mcPfx ++ k) = none)
    (hf : findOne s.coll t.key_name k = some d) :
    MongoMultiValueTable.getItem t k s =
      .ok ⟨t, k, d⟩ { s with cacheClient := some (aset es (t.mcPfx ++ k) d),
                             events := s.events ++ [.getEvt (t.mcPfx ++ k),
                                                    .setEvt (t.mcPfx ++ k) d] } := by
  simp [MongoMultiValueTable.getItem, Memcache.get, Memcache.set, mcKey, hc, hh, hf,
        List.append_assoc]

theorem mvGet_some_miss_absent {t : TableCfg} {k : String} {s : St}
    {es : List (String × Doc)}
    (hc : s.cacheClient = some es) (hh : alookup es (t.mcPfx ++ k) = none)
    (hf : findOne s.coll t.key_name k = none) :
    MongoMultiValueTable.getItem t k s =
      .err (.keyError k) { s with events := s.events ++ [.getEvt (t.mcPfx ++ k)] } := by
  simp [MongoMultiValueTable.getItem, Memcache.get, mcKey, hc, hh, hf]

theorem svSet_dict {t : TableCfg} {k : String} {l : List (String × Value)} {s : St} :
    MongoSingleValueTable.setItem t k (.vDict l) s = .err .assertionError s := rfl

theorem svSet_none {t : TableCfg} {k : String} {v : Value} {s : St}
    (hc : s.cacheClient = none) (hv : isDict v = false) :
    MongoSingleValueTable.setItem t k v s =
      .ok () { s with coll := collUpdate s.coll t.key_name k (svDoc t k v) } := by
  cases v with
  | vDict l => simp [isDict] at hv
  | vStr a => simp [MongoSingleValueTable.setItem, svDoc, hc]
  | vInt a => simp [MongoSingleValueTable.setItem, svDoc, hc]

theorem svSet_some {t : TableCfg} {k : String} {v : Value} {s : St}
    {es : List (String × Doc)}
    (hc : s.cacheClient = some es) (hv : isDict v = false) :
    MongoSingleValueTable.setItem t k v s =
      .ok () { coll := collUpdate s.coll t.key_name k (svDoc t k v),
               cacheClient := some (adel es (t.mcPfx ++ k)),
               events := s.events ++ [.delEvt (t.mcPfx ++ k)] } := by
  cases v with
  | vDict l => simp [isDict] at hv
  | vStr a => simp [MongoSingleValueTable.setItem, svDoc, Memcache.delete, mcKey, hc]
  | vInt a => simp [MongoSingleValueTable.setItem, svDoc, Memcache.delete, mcKey, hc]

theorem mvSet_nondict {t : TableCfg} {k : String} {v : Value} {s : St}
    (hv : isDict v = false) :
    MongoMultiValueTable.setItem t k v s = .err .assertionError s := by
  cases v with
  | vDict l => simp [isDict] at hv
  | vStr a => rfl
  | vInt a => rfl

theorem mvSet_conflict {t : TableCfg} {k : String} {d : Doc} {w : Value} {s : St}
    (hkn : dlookup d t.key_name = some w) (hw : isStrEq w k = false) :
    MongoMultiValueTable.setItem t k (.vDict d) s = .err .assertionError s := by
  simp [MongoMultiValueTable.setItem, hkn, hw]

theorem mvSet_none {t : TableCfg} {k : String} {d : Doc} {s : St}
    (hc : s.cacheClient = none)
    (hok : ∀ w, dlookup d t.key_name = some w → isStrEq w k = true) :
    MongoMultiValueTable.setItem t k (.vDict d) s =
      .ok (mvData t k d)
        { s with coll := collUpdate s.coll t.key_name k (mvData t k d) } := by
  cases hkn : dlookup d t.key_name with
  | some w =>
    simp [MongoMultiValueTable.setItem, mvData, hkn, hok w hkn, hc]
  | none =>
    simp [MongoMultiValueTable.setItem, mvData, hkn, hc]

theorem mvSet_some {t : TableCfg} {k : String} {d : Doc} {s : St}
    {es : List (String × Doc)}
    (hc : s.cacheClient = some es)
    (hok : ∀ w, dlookup d t.key_name = some w → isStrEq w k = true) :
    MongoMultiValueTable.setItem t k (.vDict d) s =
      .ok (mvData t k d)
        { coll := collUpdate s.coll t.key_name k (mvData t k d),
          cacheClient := some (adel es (t.mcPfx ++ k)),
          events := s.events ++ [.delEvt (t.mcPfx ++ k)] } := by
  cases hkn : dlookup d t.key_name with
  | some w =>
    simp [MongoMultiValueTable.setItem, mvData, hkn, hok w hkn, Memcache.delete, mcKey, hc]
  | none =>
    simp [MongoMultiValueTable.setItem, mvData, hkn, Memcache.delete, mcKey, hc]

/-! Inversion: what a successful `get` tells us about the states. -/

theorem svGet_ok_cases {t : TableCfg} {k : String} {s : St} {v : Value} {s₁ : St}
    (h : MongoSingleValueTable.getItem t k s = .ok v s₁) :
    s₁.coll = s.coll ∧
    ((s.cacheClient = none ∧ s₁ = s) ∨
     (∃ es d, s.cacheClient = some es ∧ dlookup d "val" = some v ∧
        s₁ = { s with cacheClient := some (aset es (t.mcPfx ++ k) d),
                      events := s.events ++ [.getEvt (t.mcPfx ++ k),
                                             .setEvt (t.mcPfx ++ k) d] })) := by
  cases hc : s.cacheClient with
  | none =>
    cases hf : findOne s.coll t.key_name k with
    | none => rw [svGet_none_absent hc hf] at h; exact absurd h (by simp)
    | some d =>
      cases hv : dlookup d "val" with
      | none =>
        simp [MongoSingleValueTable.getItem, hc, hf, hv] at h
      | some w =>
        rw [svGet_none_found hc hf hv] at h
        obtain ⟨hw, hs⟩ := by simpa using h
        subst hs
        exact ⟨rfl, Or.inl ⟨rfl, rfl⟩⟩
  | some es =>
    cases hh : alookup es (t.mcPfx ++ k) with
    | some d =>
      cases hv : dlookup d "val" with
      | none =>
        simp [MongoSingleValueTable.getItem, Memcache.get, Memcache.set, mcKey,
              hc, hh, hv] at h
      | some w =>
        rw [svGet_some_hit hc hh hv] at h
        obtain ⟨hw, hs⟩ := by simpa using h
        subst hw
        exact ⟨by rw [← hs], Or.inr ⟨es, d, rfl, hv, hs.symm⟩⟩
    | none =>
      cases hf : findOne s.coll t.key_name k with
      | none => rw [svGet_some_miss_absent hc hh hf] at h; exact absurd h (by simp)
      | some d =>
        cases hv : dlookup d "val" with
        | none =>
          simp [MongoSingleValueTable.getItem, Memcache.get, Memcache.set, mcKey,
                hc, hh, hf, hv] at h
        | some w =>
          rw [svGet_some_miss_found hc hh hf hv] at h
          obtain ⟨hw, hs⟩ := by simpa using h
          subst hw
          exact ⟨by rw [← hs], Or.inr ⟨es, d, rfl, hv, hs.symm⟩⟩

theorem mvGet_ok_cases {t : TableCfg} {k : String} {s : St} {m : MongoMutableRecord}
    {s₁ : St}
    (h : MongoMultiValueTable.getItem t k s = .ok m s₁) :
    s₁.coll = s.coll ∧ m.parent = t ∧ m.root_key = k ∧
    ((s.cacheClient = none ∧ s₁ = s) ∨
     (∃ es, s.cacheClient = some es ∧
        s₁ = { s with cacheClient := some (aset es (t.mcPfx ++ k) m.data),
                      events := s.events ++ [.getEvt (t.mcPfx ++ k),
                                             .setEvt (t.mcPfx ++ k) m.data] })) := by
  cases hc : s.cacheClient with
  | none =>
    cases hf : findOne s.coll t.key_name k with
    | none => rw [mvGet_none_absent hc hf] at h; exact absurd h (by simp)
    | some d =>
      rw [mvGet_none_found hc hf] at h
      obtain ⟨hm, hs⟩ := by simpa using h
      subst hs
      exact ⟨rfl, by rw [← hm], by rw [← hm], Or.inl ⟨rfl, rfl⟩⟩
  | some es =>
    cases hh : alookup es (t.mcPfx ++ k) with
    | some d =>
      rw [mvGet_some_hit hc hh] at h
      obtain ⟨hm, hs⟩ := by simpa using h
      exact ⟨by rw [← hs], by rw [← hm], by rw [← hm],
             Or.inr ⟨es, rfl, by rw [← hs, ← hm]⟩⟩
    | none =>
      cases hf : findOne s.coll t.key_name k with
      | none => rw [mvGet_some_miss_absent hc hh hf] at h; exact absurd h (by simp)
      | some d =>
        rw [mvGet_some_miss_found hc hh hf] at h
        obtain ⟨hm, hs⟩ := by simpa using h
        exact ⟨by rw [← hs], by rw [← hm], by rw [← hm],
               Or.inr ⟨es, rfl, by rw [← hs, ← hm]⟩⟩

/-! Facts about the documents written by `set`. -/

theorem svDoc_val (t : TableCfg) (k : String) (v : Value) :
    dlookup (svDoc t k v) "val" = some v := by
  simp [svDoc]

theorem svDoc_matches (t : TableCfg) (k : String) (v : Value)
    (h : t.key_name ≠ "val") :
    docMatches t.key_name k (svDoc t k v) = true := by
  simp [svDoc, docMatches, dlookup_dset_ne _ _ h]

theorem mvData_matches {t : TableCfg} {k : String} {d : Doc}
    (hok : ∀ w, dlookup d t.key_name = some w → isStrEq w k = true) :
    docMatches t.key_name k (mvData t k d) = true := by
  unfold mvData docMatches
  cases hkn : dlookup d t.key_name with
  | some w => simpa [hkn] using hok w hkn
  | none => simp [hkn]

theorem dlookup_mvData_of_mem {t : TableCfg} {k : String} {d : Doc} {f : String}
    {w : Value} (h : dlookup d f = some w) :
    dlookup (mvData t k d) f = some w := by
  unfold mvData
  cases hkn : dlookup d t.key_name with
  | some u => simpa using h
  | none =>
    have hf : f ≠ t.key_name := by
      intro he
      rw [he, hkn] at h
      exact Option.noConfusion h
    rw [dlookup_dset_ne _ _ hf]
    exact h

/-! Composite behavior: a successful `set` followed by `get`, twice,
together with the state of the cache entry in between. -/

theorem svSetGet {t : TableCfg} {k : String} {v : Value} {s : St}
    (hvd : isDict v = false) (hkv : t.key_name ≠ "val") :
    ∃ s₁, MongoSingleValueTable.setItem t k v s = .ok () s₁ ∧
      cacheEntryOf s₁ (t.mcPfx ++ k) = none ∧
      ∃ s₂, MongoSingleValueTable.getItem t k s₁ = .ok v s₂ ∧
        ∃ s₃, MongoSingleValueTable.getItem t k s₂ = .ok v s₃ := by
  have hm := svDoc_matches t k v hkv
  have hfind := findOne_collUpdate (c := s.coll) hm
  have hval := @dlookup_storedDoc_of_mem s.coll t.key_name k "val" _ _ (svDoc_val t k v)
  cases hc : s.cacheClient with
  | none =>
    refine ⟨_, svSet_none hc hvd, ?_, ?_⟩
    · simp [cacheEntryOf, hc]
    · refine ⟨_, svGet_none_found (s := _) hc hfind hval, ?_⟩
      exact ⟨_, svGet_none_found (s := _) hc hfind hval⟩
  | some es =>
    refine ⟨_, svSet_some hc hvd, ?_, ?_⟩
    · simp [cacheEntryOf]
    · refine ⟨_, svGet_some_miss_found (s := _) rfl (alookup_adel_self _ _) hfind hval, ?_⟩
      exact ⟨_, svGet_some_hit (s := _) rfl (alookup_aset_self _ _ _) hval⟩

theorem mvSetGet {t : TableCfg} {k : String} {d : Doc} {s : St}
    (hok : ∀ w, dlookup d t.key_name = some w → isStrEq w k = true) :
    ∃ s₁, MongoMultiValueTable.setItem t k (.vDict d) s = .ok (mvData t k d) s₁ ∧
      cacheEntryOf s₁ (t.mcPfx ++ k) = none ∧
      ∃ m s₂, MongoMultiValueTable.getItem t k s₁ = .ok m s₂ ∧
        (∀ f w, dlookup (mvData t k d) f = some w → dlookup m.data f = some w) ∧
        ∃ m₂ s₃, MongoMultiValueTable.getItem t k s₂ = .ok m₂ s₃ ∧
          (∀ f w, dlookup (mvData t k d) f = some w → dlookup m₂.data f = some w) := by
  have hm := mvData_matches hok
  have hfind := findOne_collUpdate (c := s.coll) hm
  have hpres : ∀ f w, dlookup (mvData t k d) f = some w →
      dlookup (storedDoc s.coll t.key_name k (mvData t k d)) f = some w :=
    fun f w hw => dlookup_storedDoc_of_mem hw
  cases hc : s.cacheClient with
  | none =>
    refine ⟨_, mvSet_none hc hok, ?_, ?_⟩
    · simp [cacheEntryOf, hc]
    · refine ⟨_, _, mvGet_none_found (s := _) hc hfind, hpres, ?_⟩
      exact ⟨_, _, mvGet_none_found (s := _) hc hfind, hpres⟩
  | some es =>
    refine ⟨_, mvSet_some hc hok, ?_, ?_⟩
    · simp [cacheEntryOf]
    · refine ⟨_, _, mvGet_some_miss_found (s := _) rfl (alookup_adel_self _ _) hfind,
        hpres, ?_⟩
      exact ⟨_, _, mvGet_some_hit (s := _) rfl (alookup_aset_self _ _ _), hpres⟩

/-- C1: round-trip law. After a successful `set(k, r)` on a table, a
subsequent `get(k)` returns the stored scalar (single-value table) or
a record carrying every field of the written record (multi-value
table), and a second `get(k)` — served from the cache when one is
configured — returns the same value. -/
theorem claim1_roundtrip :
    (∀ (t : TableCfg) (k : String) (v : Value) (s : St),
      isDict v = false → t.key_name ≠ "val" →
      ∃ s₁, MongoSingleValueTable.setItem t k v s = .ok () s₁ ∧
        ∃ s₂, MongoSingleValueTable.getItem t k s₁ = .ok v s₂ ∧
          ∃ s₃, MongoSingleValueTable.getItem t k s₂ = .ok v s₃) ∧
    (∀ (t : TableCfg) (k : String) (d : Doc) (s : St),
      (∀ w, dlookup d t.key_name = some w → isStrEq w k = true) →
      ∃ s₁, MongoMultiValueTable.setItem t k (.vDict d) s = .ok (mvData t k d) s₁ ∧
        ∃ m s₂, MongoMultiValueTable.getItem t k s₁ = .ok m s₂ ∧
          (∀ f w, dlookup (mvData t k d) f = some w → dlookup m.data f = some w) ∧
          ∃ m₂ s₃, MongoMultiValueTable.getItem t k s₂ = .ok m₂ s₃ ∧
            (∀ f w, dlookup (mvData t k d) f = some w → dlookup m₂.data f = some w)) := by
  constructor
  · intro t k v s hvd hkv
    obtain ⟨s₁, hset, _, s₂, hget, s₃, hget2⟩ := svSetGet hvd hkv
    exact ⟨s₁, hset, s₂, hget, s₃, hget2⟩
  · intro t k d s hok
    obtain ⟨s₁, hset, _, m, s₂, hget, hpres, m₂, s₃, hget2, hpres2⟩ := mvSetGet hok
    exact ⟨s₁, hset, m, s₂, hget, hpres, m₂, s₃, hget2, hpres2⟩

theorem claim1_roundtrip_witness :
    (isDict (.vStr "full_access") = false ∧ rolesT.key_name ≠ "val" ∧
      ∃ s₁, MongoSingleValueTable.setItem rolesT "admin" (.vStr "full_access") emptySt =
          .ok () s₁ ∧
        ∃ s₂, MongoSingleValueTable.getItem rolesT "admin" s₁ =
            .ok (.vStr "full_access") s₂ ∧
          ∃ s₃, MongoSingleValueTable.getItem rolesT "admin" s₂ =
            .ok (.vStr "full_access") s₃) ∧
    ((∀ w, dlookup [("email", Value.vStr "a@x.com")] usersT.key_name = some w →
        isStrEq w "alice" = true) ∧
      ∃ s₁, MongoMultiValueTable.setItem usersT "alice"
          (.vDict [("email", Value.vStr "a@x.com")]) emptyCacheSt =
          .ok (mvData usersT "alice" [("email", Value.vStr "a@x.com")]) s₁ ∧
        ∃ m s₂, MongoMultiValueTable.getItem usersT "alice" s₁ = .ok m s₂ ∧
          (∀ f w, dlookup (mvData usersT "alice" [("email", Value.vStr "a@x.com")]) f =
              some w → dlookup m.data f = some w) ∧
          ∃ m₂ s₃, MongoMultiValueTable.getItem usersT "alice" s₂ = .ok m₂ s₃ ∧
            (∀ f w, dlookup (mvData usersT "alice" [("email", Value.vStr "a@x.com")]) f =
              some w → dlookup m₂.data f = some w)) := by
  have hok : ∀ w, dlookup [("email", Value.vStr "a@x.com")] usersT.key_name = some w →
      isStrEq w "alice" = true := by
    intro w h
    simp [usersT, dlookup] at h
  exact ⟨⟨by decide, by decide,
          claim1_roundtrip.1 rolesT "admin" (.vStr "full_access") emptySt
            (by decide) (by decide)⟩,
         ⟨hok, claim1_roundtrip.2 usersT "alice"
            [("email", Value.vStr "a@x.com")] emptyCacheSt hok⟩⟩

/-- C2: for a key absent from both the store and the cache, `contains`
returns false and `get` on either table kind raises KeyError. -/
theorem claim2_not_found :
    ∀ (t : TableCfg) (k : String) (s : St),
      findOne s.coll t.key_name k = none →
      cacheEntryOf s (t.mcPfx ++ k) = none →
      (∃ s', MongoTable.containsKey t k s = .ok false s') ∧
      (∃ s', MongoSingleValueTable.getItem t k s = .err (.keyError k) s') ∧
      (∃ s', MongoMultiValueTable.getItem t k s = .err (.keyError k) s') := by
  intro t k s hf hcache
  cases hc : s.cacheClient with
  | none =>
    refine ⟨⟨s, ?_⟩, ⟨s, svGet_none_absent hc hf⟩, ⟨s, mvGet_none_absent hc hf⟩⟩
    rw [containsKey_none hc, hf]
    rfl
  | some es =>
    have hh : alookup es (t.mcPfx ++ k) = none := by
      unfold cacheEntryOf at hcache
      rwa [hc] at hcache
    exact ⟨⟨_, containsKey_some_miss_absent hc hh hf⟩,
           ⟨_, svGet_some_miss_absent hc hh hf⟩,
           ⟨_, mvGet_some_miss_absent hc hh hf⟩⟩

theorem claim2_witness :
    findOne emptySt.coll rolesT.key_name "ghost" = none ∧
    cacheEntryOf emptySt (rolesT.mcPfx ++ "ghost") = none ∧
    ((∃ s', MongoTable.containsKey rolesT "ghost" emptySt = .ok false s') ∧
     (∃ s', MongoSingleValueTable.getItem rolesT "ghost" emptySt =
        .err (.keyError "ghost") s') ∧
     (∃ s', MongoMultiValueTable.getItem rolesT "ghost" emptySt =
        .err (.keyError "ghost") s')) :=
  ⟨rfl, rfl, claim2_not_found rolesT "ghost" emptySt rfl rfl⟩

/-- C4: write-invalidate law. Immediately after a successful `set` on
either table kind the cache holds no entry under the table's
namespaced key, and a `get` issued right after the `set` observes the
newly written value from the store. -/
theorem claim4_write_invalidate :
    (∀ (t : TableCfg) (k : String) (v : Value) (s : St),
      isDict v = false → t.key_name ≠ "val" →
      ∃ s₁, MongoSingleValueTable.setItem t k v s = .ok () s₁ ∧
        cacheEntryOf s₁ (t.mcPfx ++ k) = none ∧
        ∃ s₂, MongoSingleValueTable.getItem t k s₁ = .ok v s₂) ∧
    (∀ (t : TableCfg) (k : String) (d : Doc) (s : St),
      (∀ w, dlookup d t.key_name = some w → isStrEq w k = true) →
      ∃ s₁, MongoMultiValueTable.setItem t k (.vDict d) s = .ok (mvData t k d) s₁ ∧
        cacheEntryOf s₁ (t.mcPfx ++ k) = none ∧
        ∃ m s₂, MongoMultiValueTable.getItem t k s₁ = .ok m s₂ ∧
          (∀ f w, dlookup (mvData t k d) f = some w → dlookup m.data f = some w)) := by
  constructor
  · intro t k v s hvd hkv
    obtain ⟨s₁, hset, hinv, s₂, hget, _⟩ := svSetGet hvd hkv
    exact ⟨s₁, hset, hinv, s₂, hget⟩
  · intro t k d s hok
    obtain ⟨s₁, hset, hinv, m, s₂, hget, hpres, _⟩ := mvSetGet hok
    exact ⟨s₁, hset, hinv, m, s₂, hget, hpres⟩

theorem claim4_witness :
    (isDict (.vStr "full_access") = false ∧ rolesT.key_name ≠ "val" ∧
      ∃ s₁, MongoSingleValueTable.setItem rolesT "admin" (.vStr "full_access")
          cacheHitSt = .ok () s₁ ∧
        cacheEntryOf s₁ (rolesT.mcPfx ++ "admin") = none ∧
        ∃ s₂, MongoSingleValueTable.getItem rolesT "admin" s₁ =
          .ok (.vStr "full_access") s₂) := by
  exact ⟨by decide, by decide,
    claim4_write_invalidate.1 rolesT "admin" (.vStr "full_access") cacheHitSt
      (by decide) (by decide)⟩

/-- C6: argument validation on `set`. A single-value `set` of a dict
value raises AssertionError with the state unchanged; a multi-value
`set` of a non-dict raises AssertionError; a multi-value `set` whose
record carries the key field bound to a value that does not equal the
supplied key raises AssertionError. -/
theorem claim6_validation :
    (∀ (t : TableCfg) (k : String) (l : List (String × Value)) (s : St),
      MongoSingleValueTable.setItem t k (.vDict l) s = .err .assertionError s) ∧
    (∀ (t : TableCfg) (k : String) (v : Value) (s : St), isDict v = false →
      MongoMultiValueTable.setItem t k v s = .err .assertionError s) ∧
    (∀ (t : TableCfg) (k : String) (d : Doc) (w : Value) (s : St),
      dlookup d t.key_name = some w → isStrEq w k = false →
      MongoMultiValueTable.setItem t k (.vDict d) s = .err .assertionError s) := by
  exact ⟨fun _ _ _ _ => svSet_dict,
         fun _ _ _ _ hv => mvSet_nondict hv,
         fun _ _ _ _ _ hkn hw => mvSet_conflict hkn hw⟩

theorem claim6_witness :
    (MongoSingleValueTable.setItem rolesT "admin" (.vDict [("a", .vStr "b")]) emptySt =
      .err .assertionError emptySt) ∧
    (isDict (.vStr "plain") = false ∧
      MongoMultiValueTable.setItem usersT "alice" (.vStr "plain") emptySt =
        .err .assertionError emptySt) ∧
    (dlookup [("login", Value.vStr "bob")] usersT.key_name = some (Value.vStr "bob") ∧
      isStrEq (Value.vStr "bob") "alice" = false ∧
      MongoMultiValueTable.setItem usersT "alice"
        (.vDict [("login", Value.vStr "bob")]) emptySt =
        .err .assertionError emptySt) := by
  refine ⟨claim6_validation.1 rolesT "admin" [("a", .vStr "b")] emptySt,
          ⟨by decide, claim6_validation.2.1 usersT "alice" (.vStr "plain") emptySt
            (by decide)⟩,
          ⟨rfl, by decide, claim6_validation.2.2 usersT "alice"
            [("login", Value.vStr "bob")] (Value.vStr "bob") emptySt rfl (by decide)⟩⟩

/-- C9: a multi-value `set` whose record lacks the key field injects
the key field into the caller's own record, which gains exactly one
binding. -/
theorem claim9_mutates_caller :
    ∀ (t : TableCfg) (k : String) (d : Doc) (s : St),
      dlookup d t.key_name = none →
      ∃ s₁, MongoMultiValueTable.setItem t k (.vDict d) s =
          .ok (d ++ [(t.key_name, .vStr k)]) s₁ ∧
        d ++ [(t.key_name, .vStr k)] ≠ d := by
  intro t k d s hkn
  have hok : ∀ w, dlookup d t.key_name = some w → isStrEq w k = true := by
    intro w h
    rw [hkn] at h
    exact Option.noConfusion h
  have hmv : mvData t k d = d ++ [(t.key_name, .vStr k)] := by
    unfold mvData
    rw [hkn]
    exact dset_of_absent _ _ _ hkn
  have hne : d ++ [(t.key_name, Value.vStr k)] ≠ d := by
    intro he
    have hl := congrArg List.length he
    simp at hl
  cases hc : s.cacheClient with
  | none =>
    refine ⟨{ s with coll := collUpdate s.coll t.key_name k (mvData t k d) }, ?_, hne⟩
    rw [← hmv]
    exact mvSet_none hc hok
  | some es =>
    refine ⟨{ coll := collUpdate s.coll t.key_name k (mvData t k d),
              cacheClient := some (adel es (t.mcPfx ++ k)),
              events := s.events ++ [.delEvt (t.mcPfx ++ k)] }, ?_, hne⟩
    rw [← hmv]
    exact mvSet_some hc hok

theorem claim9_witness :
    dlookup [("email", Value.vStr "a@x.com")] usersT.key_name = none ∧
    ∃ s₁, MongoMultiValueTable.setItem usersT "alice"
        (.vDict [("email", Value.vStr "a@x.com")]) emptySt =
        .ok ([("email", Value.vStr "a@x.com")] ++ [(usersT.key_name, .vStr "alice")]) s₁ ∧
      [("email", Value.vStr "a@x.com")] ++ [(usersT.key_name, .vStr "alice")] ≠
        [("email", Value.vStr "a@x.com")] :=
  ⟨rfl, claim9_mutates_caller usersT "alice" [("email", Value.vStr "a@x.com")] emptySt rfl⟩

/-- C3: remove-and-return. When `get(k)` succeeds, `pop(k)` returns
the same value, deletes the stored document, invalidates the cache
entry, and `contains(k)` is false afterward; when the key is absent
from store and cache, `pop(k)` raises KeyError and leaves the store
collection and the cache contents unchanged. Both table kinds. -/
theorem claim3_remove :
    (∀ (t : TableCfg) (k : String) (v : Value) (s s₁ : St),
      MongoSingleValueTable.getItem t k s = .ok v s₁ →
      ∃ s₂, MongoSingleValueTable.pop t k s = .ok v s₂ ∧
        findOne s₂.coll t.key_name k = none ∧
        cacheEntryOf s₂ (t.mcPfx ++ k) = none ∧
        ∃ s₃, MongoTable.containsKey t k s₂ = .ok false s₃) ∧
    (∀ (t : TableCfg) (k : String) (s : St),
      findOne s.coll t.key_name k = none →
      cacheEntryOf s (t.mcPfx ++ k) = none →
      ∃ s', MongoSingleValueTable.pop t k s = .err (.keyError k) s' ∧
        s'.coll = s.coll ∧ s'.cacheClient = s.cacheClient) ∧
    (∀ (t : TableCfg) (k : String) (m : MongoMutableRecord) (s s₁ : St),
      MongoMultiValueTable.getItem t k s = .ok m s₁ →
      ∃ s₂, MongoMultiValueTable.pop t k s = .ok m s₂ ∧
        findOne s₂.coll t.key_name k = none ∧
        cacheEntryOf s₂ (t.mcPfx ++ k) = none ∧
        ∃ s₃, MongoTable.containsKey t k s₂ = .ok false s₃) ∧
    (∀ (t : TableCfg) (k : String) (s : St),
      findOne s.coll t.key_name k = none →
      cacheEntryOf s (t.mcPfx ++ k) = none →
      ∃ s', MongoMultiValueTable.pop t k s = .err (.keyError k) s' ∧
        s'.coll = s.coll ∧ s'.cacheClient = s.cacheClient) := by
  refine ⟨?_, ?_, ?_, ?_⟩
  · intro t k v s s₁ h
    obtain ⟨hcoll, hcase⟩ := svGet_ok_cases h
    rcases hcase with ⟨hc, rfl⟩ | ⟨es, d, hc, hv, rfl⟩
    · refine ⟨{ s₁ with coll := collRemove s₁.coll t.key_name k }, ?_, ?_, ?_, ?_⟩
      · simp [MongoSingleValueTable.pop, h, hc]
      · exact findOne_collRemove s₁.coll t.key_name k
      · simp [cacheEntryOf, hc]
      · refine ⟨{ s₁ with coll := collRemove s₁.coll t.key_name k }, ?_⟩
        rw [containsKey_none
          (s := { s₁ with coll := collRemove s₁.coll t.key_name k }) hc]
        simp [findOne_collRemove]
    · refine ⟨{ coll := collRemove s.coll t.key_name k,
                cacheClient := some (adel (aset es (t.mcPfx ++ k) d) (t.mcPfx ++ k)),
                events := s.events ++ [.getEvt (t.mcPfx ++ k),
                                       .setEvt (t.mcPfx ++ k) d,
                                       .delEvt (t.mcPfx ++ k)] }, ?_, ?_, ?_, ?_⟩
      · simp [MongoSingleValueTable.pop, h, Memcache.delete, mcKey, List.append_assoc]
      · exact findOne_collRemove s.coll t.key_name k
      · simp [cacheEntryOf]
      · exact ⟨_, containsKey_some_miss_absent rfl (alookup_adel_self _ _)
          (findOne_collRemove s.coll t.key_name k)⟩
  · intro t k s hf hcache
    cases hc : s.cacheClient with
    | none =>
      refine ⟨s, ?_, rfl, hc⟩
      simp [MongoSingleValueTable.pop, svGet_none_absent hc hf]
    | some es =>
      have hh : alookup es (t.mcPfx ++ k) = none := by
        unfold cacheEntryOf at hcache
        rwa [hc] at hcache
      refine ⟨{ s with events := s.events ++ [.getEvt (t.mcPfx ++ k)] }, ?_, rfl, hc⟩
      simp [MongoSingleValueTable.pop, svGet_some_miss_absent hc hh hf]
  · intro t k m s s₁ h
    obtain ⟨hcoll, hp, hr, hcase⟩ := mvGet_ok_cases h
    rcases hcase with ⟨hc, rfl⟩ | ⟨es, hc, rfl⟩
    · refine ⟨{ s₁ with coll := collRemove s₁.coll t.key_name k }, ?_, ?_, ?_, ?_⟩
      · simp [MongoMultiValueTable.pop, h, hc]
      · exact findOne_collRemove s₁.coll t.key_name k
      · simp [cacheEntryOf, hc]
      · refine ⟨{ s₁ with coll := collRemove s₁.coll t.key_name k }, ?_⟩
        rw [containsKey_none
          (s := { s₁ with coll := collRemove s₁.coll t.key_name k }) hc]
        simp [findOne_collRemove]
    · refine ⟨{ coll := collRemove s.coll t.key_name k,
                cacheClient := some (adel (aset es (t.mcPfx ++ k) m.data) (t.mcPfx ++ k)),
                events := s.events ++ [.getEvt (t.mcPfx ++ k),
                                       .setEvt (t.mcPfx ++ k) m.data,
                                       .delEvt (t.mcPfx ++ k)] }, ?_, ?_, ?_, ?_⟩
      · simp [MongoMultiValueTable.pop, h, Memcache.delete, mcKey, List.append_assoc]
      · exact findOne_collRemove s.coll t.key_name k
      · simp [cacheEntryOf]
      · exact ⟨_, containsKey_some_miss_absent rfl (alookup_adel_self _ _)
          (findOne_collRemove s.coll t.key_name k)⟩
  · intro t k s hf hcache
    cases hc : s.cacheClient with
    | none =>
      refine ⟨s, ?_, rfl, hc⟩
      simp [MongoMultiValueTable.pop, mvGet_none_absent hc hf]
    | some es =>
      have hh : alookup es (t.mcPfx ++ k) = none := by
        unfold cacheEntryOf at hcache
        rwa [hc] at hcache
      refine ⟨{ s with events := s.events ++ [.getEvt (t.mcPfx ++ k)] }, ?_, rfl, hc⟩
      simp [MongoMultiValueTable.pop, mvGet_some_miss_absent hc hh hf]

theorem claim3_witness :
    (MongoSingleValueTable.getItem rolesT "admin" adminSt = .ok (.vStr "x") adminSt ∧
      ∃ s₂, MongoSingleValueTable.pop rolesT "admin" adminSt = .ok (.vStr "x") s₂ ∧
        findOne s₂.coll rolesT.key_name "admin" = none ∧
        cacheEntryOf s₂ (rolesT.mcPfx ++ "admin") = none ∧
        ∃ s₃, MongoTable.containsKey rolesT "admin" s₂ = .ok false s₃) ∧
    (findOne emptySt.coll rolesT.key_name "admin" = none ∧
      cacheEntryOf emptySt (rolesT.mcPfx ++ "admin") = none ∧
      ∃ s', MongoSingleValueTable.pop rolesT "admin" emptySt =
          .err (.keyError "admin") s' ∧
        s'.coll = emptySt.coll ∧ s'.cacheClient = emptySt.cacheClient) :=
  ⟨⟨rfl, claim3_remove.1 rolesT "admin" (.vStr "x") adminSt adminSt rfl⟩,
   ⟨rfl, rfl, claim3_remove.2.1 rolesT "admin" emptySt rfl rfl⟩⟩

/-- C5 counterexample: the store holds nothing under role `admin`, so
the successful lookup is necessarily served from the cache, yet the
operation issues a cache write (`setEvt` in the trace): `get` does not
populate the cache on the store path only. -/
theorem claim5_counterexample :
    findOne cacheHitSt.coll rolesT.key_name "admin" = none ∧
    MongoSingleValueTable.getItem rolesT "admin" cacheHitSt =
      .ok (.vStr "cached")
        ⟨cacheHitSt.coll, some [("rolesroleadmin", cachedRoleDoc)],
         [.getEvt "rolesroleadmin", .setEvt "rolesroleadmin" cachedRoleDoc]⟩ ∧
    ([CacheEvt.getEvt "rolesroleadmin",
      CacheEvt.setEvt "rolesroleadmin" cachedRoleDoc].filter isSetEvt).length = 1 :=
  ⟨rfl, rfl, rfl⟩

/-- C5 (amended): with a cache client configured, every successful
`get` on either table kind issues a cache write for the namespaced
key — on the cache-hit path just as on the store path — leaving the
entry populated with the returned document. -/
theorem claim5_amended :
    ∀ (t : TableCfg) (k : String) (s : St) (es : List (String × Doc)),
      s.cacheClient = some es →
      (∀ v s₁, MongoSingleValueTable.getItem t k s = .ok v s₁ →
        ∃ d, s₁.events = s.events ++ [.getEvt (t.mcPfx ++ k), .setEvt (t.mcPfx ++ k) d] ∧
          cacheEntryOf s₁ (t.mcPfx ++ k) = some d) ∧
      (∀ m s₁, MongoMultiValueTable.getItem t k s = .ok m s₁ →
        s₁.events = s.events ++ [.getEvt (t.mcPfx ++ k), .setEvt (t.mcPfx ++ k) m.data] ∧
          cacheEntryOf s₁ (t.mcPfx ++ k) = some m.data) := by
  intro t k s es hc
  constructor
  · intro v s₁ h
    obtain ⟨-, hcase⟩ := svGet_ok_cases h
    rcases hcase with ⟨hc', -⟩ | ⟨es', d, hc', hv, rfl⟩
    · rw [hc] at hc'
      exact Option.noConfusion hc'
    · exact ⟨d, rfl, by simp [cacheEntryOf]⟩
  · intro m s₁ h
    obtain ⟨-, -, -, hcase⟩ := mvGet_ok_cases h
    rcases hcase with ⟨hc', -⟩ | ⟨es', hc', rfl⟩
    · rw [hc] at hc'
      exact Option.noConfusion hc'
    · exact ⟨rfl, by simp [cacheEntryOf]⟩

theorem claim5_witness :
    cacheHitSt.cacheClient = some [("rolesroleadmin", cachedRoleDoc)] ∧
    ∃ d, (⟨cacheHitSt.coll, some [("rolesroleadmin", cachedRoleDoc)],
            [CacheEvt.getEvt "rolesroleadmin",
             CacheEvt.setEvt "rolesroleadmin" cachedRoleDoc]⟩ : St).events =
          cacheHitSt.events ++ [.getEvt (rolesT.mcPfx ++ "admin"),
                                .setEvt (rolesT.mcPfx ++ "admin") d] ∧
        cacheEntryOf ⟨cacheHitSt.coll, some [("rolesroleadmin", cachedRoleDoc)],
            [CacheEvt.getEvt "rolesroleadmin",
             CacheEvt.setEvt "rolesroleadmin" cachedRoleDoc]⟩
          (rolesT.mcPfx ++ "admin") = some d :=
  ⟨rfl, (claim5_amended rolesT "admin" cacheHitSt
      [("rolesroleadmin", cachedRoleDoc)] rfl).1 (.vStr "cached") _ rfl⟩

/-- C7 counterexample: on the view returned for user `alice`,
assigning the key field `login` the value `bob` raises AssertionError
(the write-back rejects the key mismatch) and leaves the state
unchanged, so a subsequent `get("alice")` still returns a record whose
`login` field is `alice`, not `bob`: the claim fails for the key
field. -/
theorem claim7_counterexample :
    MongoMultiValueTable.getItem usersT "alice" aliceSt =
      .ok ⟨usersT, "alice", aliceDoc⟩ aliceSt ∧
    MongoMutableRecord.setField ⟨usersT, "alice", aliceDoc⟩ "login" (.vStr "bob")
      aliceSt = .err .assertionError aliceSt ∧
    dlookup aliceDoc "login" = some (.vStr "alice") ∧
    some (Value.vStr "alice") ≠ some (Value.vStr "bob") := by
  refine ⟨rfl, rfl, rfl, ?_⟩
  intro h
  have h1 : "alice" = "bob" := Value.vStr.inj (Option.some.inj h)
  exact absurd h1 (by decide)

/-- C7 (amended): for every field other than the table's key field and
the storage id field, assigning through the mutable record view writes
the whole record back, and a subsequent `get(k)` returns a record
whose field equals the assigned value. -/
theorem claim7_amended :
    ∀ (t : TableCfg) (k f : String) (v : Value) (m : MongoMutableRecord) (s : St),
      m.parent = t → m.root_key = k → f ≠ t.key_name → f ≠ "_id" →
      (dlookup m.data t.key_name = some (.vStr k) ∨
        dlookup m.data t.key_name = none) →
      ∃ m' s₂, m.setField f v s = .ok m' s₂ ∧
        ∃ m₂ s₃, MongoMultiValueTable.getItem t k s₂ = .ok m₂ s₃ ∧
          dlookup m₂.data f = some v := by
  intro t k f v m s hp hr hf hid hkey
  subst hp
  subst hr
  have hok : ∀ w, dlookup (dset m.data f v) m.parent.key_name = some w →
      isStrEq w m.root_key = true := by
    intro w hw
    rw [dlookup_dset_ne _ _ (Ne.symm hf)] at hw
    rcases hkey with hk | hk
    · rw [hk] at hw
      obtain rfl := Option.some.inj hw
      exact isStrEq_self _
    · rw [hk] at hw
      exact Option.noConfusion hw
  obtain ⟨s₁, hset, -, m₂, s₂, hget, hpres, -⟩ :=
    mvSetGet (s := s) (d := dset m.data f v) hok
  refine ⟨⟨m.parent, m.root_key, mvData m.parent m.root_key (dset m.data f v)⟩, s₁,
          ?_, m₂, s₂, hget, ?_⟩
  · simp [MongoMutableRecord.setField, hset]
  · exact hpres f v (dlookup_mvData_of_mem (dlookup_dset_self _ _ _))

theorem claim7_amended_witness :
    ("email" ≠ usersT.key_name) ∧ ("email" ≠ "_id") ∧
    dlookup aliceDoc usersT.key_name = some (.vStr "alice") ∧
    ∃ m' s₂, MongoMutableRecord.setField ⟨usersT, "alice", aliceDoc⟩ "email"
        (.vStr "b@x.com") aliceSt = .ok m' s₂ ∧
      ∃ m₂ s₃, MongoMultiValueTable.getItem usersT "alice" s₂ = .ok m₂ s₃ ∧
        dlookup m₂.data "email" = some (.vStr "b@x.com") :=
  ⟨by decide, by decide, rfl,
   claim7_amended usersT "alice" "email" (.vStr "b@x.com") ⟨usersT, "alice", aliceDoc⟩
     aliceSt rfl rfl (by decide) (by decide) (Or.inl rfl)⟩

/-! Enumeration: behavior of `iteritems` document by document. -/

theorem iterItemsList_spec (kn : String) (hkn : kn ≠ "_id") :
    ∀ docs : List Doc,
      (∀ d ∈ docs, (d.map Prod.fst).Nodup ∧
        (dlookup d kn).isSome ∧ (dlookup d "_id").isSome) →
      ∃ l, iterItemsList kn docs = .ok l ∧ l.length = docs.length ∧
        ∀ (j : Nat) (hj : j < docs.length) (hj' : j < l.length),
          some (l.get ⟨j, hj'⟩).1 = dlookup (docs.get ⟨j, hj⟩) kn ∧
          dlookup (l.get ⟨j, hj'⟩).2 kn = none ∧
          dlookup (l.get ⟨j, hj'⟩).2 "_id" = none ∧
          ∀ f, f ≠ kn → f ≠ "_id" →
            dlookup (l.get ⟨j, hj'⟩).2 f = dlookup (docs.get ⟨j, hj⟩) f := by
  intro docs
  induction docs with
  | nil =>
    intro _
    exact ⟨[], rfl, rfl, fun j hj => absurd hj (by simp)⟩
  | cons i rest ih =>
    intro hwf
    obtain ⟨hnd, hkv, hid⟩ := hwf i (by simp)
    obtain ⟨kv, hkv'⟩ := Option.isSome_iff_exists.mp hkv
    obtain ⟨oid, hid'⟩ := Option.isSome_iff_exists.mp hid
    have hone : iterOneDoc kn i = .ok (kv, dpop (dpop i kn) "_id") := by
      simp only [iterOneDoc, hkv', dlookup_dpop_ne _ (Ne.symm hkn), hid']
    obtain ⟨l, hl, hlen, hprops⟩ := ih (fun d hd => hwf d (by simp [hd]))
    refine ⟨(kv, dpop (dpop i kn) "_id") :: l, ?_, by simp [hlen], ?_⟩
    · unfold iterItemsList
      rw [hone, hl]
    · intro j hj hj'
      cases j with
      | zero =>
        refine ⟨by simpa using hkv'.symm, ?_, ?_, ?_⟩
        · show dlookup (dpop (dpop i kn) "_id") kn = none
          rw [dlookup_dpop_ne _ hkn]
          exact dlookup_dpop_self _ _ hnd
        · show dlookup (dpop (dpop i kn) "_id") "_id" = none
          exact dlookup_dpop_self _ _ ((dpop_map_fst i kn).nodup hnd)
        · intro f hfk hfid
          show dlookup (dpop (dpop i kn) "_id") f = dlookup i f
          rw [dlookup_dpop_ne _ hfid, dlookup_dpop_ne _ hfk]
      | succ n =>
        have hjr : n < rest.length := by simpa using hj
        have hjr' : n < l.length := by simpa using hj'
        simpa using hprops n hjr hjr'

/-- C8: `iteritems` enumerates exactly one pair per stored document:
the key is the document's key-field value and the record is the
document with the key field and the storage id removed, every other
field preserved; the operation leaves the state untouched (it neither
consults nor writes the cache). -/
theorem claim8_iteritems :
    ∀ (t : TableCfg) (s : St), t.key_name ≠ "_id" →
      (∀ d ∈ s.coll.docs, (d.map Prod.fst).Nodup ∧
        (dlookup d t.key_name).isSome ∧ (dlookup d "_id").isSome) →
      ∃ l, MongoTable.iterItems t s = .ok l s ∧
        l.length = s.coll.docs.length ∧
        ∀ (j : Nat) (hj : j < s.coll.docs.length) (hj' : j < l.length),
          some (l.get ⟨j, hj'⟩).1 = dlookup (s.coll.docs.get ⟨j, hj⟩) t.key_name ∧
          dlookup (l.get ⟨j, hj'⟩).2 t.key_name = none ∧
          dlookup (l.get ⟨j, hj'⟩).2 "_id" = none ∧
          ∀ f, f ≠ t.key_name → f ≠ "_id" →
            dlookup (l.get ⟨j, hj'⟩).2 f = dlookup (s.coll.docs.get ⟨j, hj⟩) f := by
  intro t s hkn hwf
  obtain ⟨l, hl, hlen, hprops⟩ := iterItemsList_spec t.key_name hkn s.coll.docs hwf
  refine ⟨l, ?_, hlen, hprops⟩
  unfold MongoTable.iterItems
  rw [hl]

theorem claim8_witness :
    usersT.key_name ≠ "_id" ∧
    (∀ d ∈ aliceSt.coll.docs, (d.map Prod.fst).Nodup ∧
      (dlookup d usersT.key_name).isSome ∧ (dlookup d "_id").isSome) ∧
    ∃ l, MongoTable.iterItems usersT aliceSt = .ok l aliceSt ∧
      l.length = aliceSt.coll.docs.length ∧
      ∀ (j : Nat) (hj : j < aliceSt.coll.docs.length) (hj' : j < l.length),
        some (l.get ⟨j, hj'⟩).1 = dlookup (aliceSt.coll.docs.get ⟨j, hj⟩) usersT.key_name ∧
        dlookup (l.get ⟨j, hj'⟩).2 usersT.key_name = none ∧
        dlookup (l.get ⟨j, hj'⟩).2 "_id" = none ∧
        ∀ f, f ≠ usersT.key_name → f ≠ "_id" →
          dlookup (l.get ⟨j, hj'⟩).2 f = dlookup (aliceSt.coll.docs.get ⟨j, hj⟩) f := by
  have hwf : ∀ d ∈ aliceSt.coll.docs, (d.map Prod.fst).Nodup ∧
      (dlookup d usersT.key_name).isSome ∧ (dlookup d "_id").isSome := by
    intro d hd
    simp [aliceSt] at hd
    subst hd
    exact ⟨by decide, by decide, by decide⟩
  exact ⟨by decide, hwf, claim8_iteritems usersT aliceSt (by decide) hwf⟩

/-- C10: with no cache client configured, every table operation skips
all cache access — no raw memcache call (and hence no AttributeError
on the absent client) is ever reached, the event trace and cache
configuration are untouched, and each operation's outcome is fully
determined by the document store. -/
theorem claim10_no_cache_path :
    ∀ (t : TableCfg) (k : String) (s : St), s.cacheClient = none →
      MongoTable.containsKey t k s = .ok (findOne s.coll t.key_name k).isSome s ∧
      MongoSingleValueTable.getItem t k s =
        (match findOne s.coll t.key_name k with
         | none => .err (.keyError k) s
         | some d =>
           match dlookup d "val" with
           | some v => .ok v s
           | none => .err (.keyError "val") s) ∧
      MongoMultiValueTable.getItem t k s =
        (match findOne s.coll t.key_name k with
         | none => .err (.keyError k) s
         | some d => .ok ⟨t, k, d⟩ s) ∧
      (∀ v : Value, MongoSingleValueTable.setItem t k v s =
        (match v with
         | .vDict _ => .err .assertionError s
         | _ => .ok () { s with coll := collUpdate s.coll t.key_name k (svDoc t k v) })) ∧
      (∀ v : Value, MongoMultiValueTable.setItem t k v s =
        (match v with
         | .vDict d =>
           (match dlookup d t.key_name with
            | some w =>
              if isStrEq w k then
                .ok d { s with coll := collUpdate s.coll t.key_name k d }
              else .err .assertionError s
            | none =>
              .ok (dset d t.key_name (.vStr k))
                { s with coll := collUpdate s.coll t.key_name k (dset d t.key_name (.vStr k)) })
         | _ => .err .assertionError s)) ∧
      MongoSingleValueTable.pop t k s =
        (match findOne s.coll t.key_name k with
         | none => .err (.keyError k) s
         | some d =>
           match dlookup d "val" with
           | some v => .ok v { s with coll := collRemove s.coll t.key_name k }
           | none => .err (.keyError "val") s) ∧
      MongoMultiValueTable.pop t k s =
        (match findOne s.coll t.key_name k with
         | none => .err (.keyError k) s
         | some d => .ok ⟨t, k, d⟩ { s with coll := collRemove s.coll t.key_name k }) := by
  intro t k s hc
  refine ⟨containsKey_none hc, ?_, ?_, ?_, ?_, ?_, ?_⟩
  · cases hf : findOne s.coll t.key_name k with
    | none => exact svGet_none_absent hc hf
    | some d =>
      cases hv : dlookup d "val" with
      | some v => simp [svGet_none_found hc hf hv, hv]
      | none => simp [MongoSingleValueTable.getItem, hc, hf, hv]
  · cases hf : findOne s.coll t.key_name k with
    | none => exact mvGet_none_absent hc hf
    | some d => simp [mvGet_none_found hc hf]
  · intro v
    cases v with
    | vDict l => rfl
    | vStr a => exact svSet_none hc rfl
    | vInt a => exact svSet_none hc rfl
  · intro v
    cases v with
    | vStr a => rfl
    | vInt a => rfl
    | vDict d =>
      cases hkn : dlookup d t.key_name with
      | some w =>
        cases hw : isStrEq w k with
        | true => simp [MongoMultiValueTable.setItem, hkn, hw, hc]
        | false => simp [MongoMultiValueTable.setItem, hkn, hw]
      | none => simp [MongoMultiValueTable.setItem, hkn, hc]
  · cases hf : findOne s.coll t.key_name k with
    | none => simp [MongoSingleValueTable.pop, svGet_none_absent hc hf]
    | some d =>
      cases hv : dlookup d "val" with
      | some v => simp [MongoSingleValueTable.pop, svGet_none_found hc hf hv, hc, hv]
      | none => simp [MongoSingleValueTable.pop, MongoSingleValueTable.getItem,
          hc, hf, hv]
  · cases hf : findOne s.coll t.key_name k with
    | none => simp [MongoMultiValueTable.pop, mvGet_none_absent hc hf]
    | some d => simp [MongoMultiValueTable.pop, mvGet_none_found hc hf, hc]

theorem claim10_witness :
    emptySt.cacheClient = none ∧
    MongoTable.containsKey rolesT "ghost2" emptySt = .ok false emptySt ∧
    MongoSingleValueTable.pop rolesT "ghost2" emptySt =
      .err (.keyError "ghost2") emptySt :=
  ⟨rfl, (claim10_no_cache_path rolesT "ghost2" emptySt rfl).1,
   (claim10_no_cache_path rolesT "ghost2" emptySt rfl).2.2.2.2.2.1⟩
